import Mathlib

/-!
# Verification of the BigQuery anti-pattern detector and optimizer

A shallow embedding of the rule-based core of the repository: the six
anti-pattern predicates of `analizer/anti_patterns.py` (duplicated in
`app.py`), the textual transforms of `analizer/query_optimizer.py`, and
the `analyze_query` / `optimize_query` fallback paths of `app.py`.

Query text is a `String`, processed as its `List Char`. The Python code
matches with `re.search` / `re.findall` under `re.IGNORECASE`; each regular
expression used by the source is rendered here as an executable matcher
with the same boolean semantics (existence of a match). `\s` is the ASCII
whitespace class, `\w` the ASCII word class, `\d` the ASCII digits; the
dot classes of the subquery patterns exclude the newline, as in Python
without `re.DOTALL`. Case-insensitive comparison is `Char.toLower`
equality, the ASCII reading of `re.IGNORECASE`.
-/

/-- ASCII rendering of the regex class `\s`. -/
def isSpace (c : Char) : Bool :=
  c = ' ' || c = '\t' || c = '\n' || c = '\r' || c = '\x0b' || c = '\x0c'

/-- ASCII rendering of the regex class `\w`. -/
def isWordChar (c : Char) : Bool :=
  c.isAlphanum || c = '_'

/-- Case-insensitive equality of equal-length character lists. -/
def ciEq : List Char → List Char → Bool
  | [], [] => true
  | a :: xs, b :: ys => (a.toLower = b.toLower) && ciEq xs ys
  | _, _ => false

/-- Match the literal `kw` case-insensitively at the head of `s`,
returning the remainder on success. -/
def matchKw : List Char → List Char → Option (List Char)
  | [], s => some s
  | _ :: _, [] => none
  | k :: ks, c :: cs => if k.toLower = c.toLower then matchKw ks cs else none

/-- Drop the maximal run of `\s` characters: the only way `\s*` (or the
tail of `\s+`) can be followed by a non-space literal. -/
def skipSpaces : List Char → List Char
  | [] => []
  | c :: cs => if isSpace c then skipSpaces cs else c :: cs

/-- True when the list is empty or starts with a non-space character. -/
def headNS : List Char → Bool
  | [] => true
  | c :: _ => !isSpace c

/-- True when the list is empty or starts with a non-word character:
the trailing `\b` test. -/
def headNonWord : List Char → Bool
  | [] => true
  | c :: _ => !isWordChar c

/-- The leading `\b` test against the character preceding the match
position (`none` at the start of the text). -/
def nonWordOpt : Option Char → Bool
  | none => true
  | some c => !isWordChar c

/-- All suffixes of `s` reachable by `.*?kw`: skip any characters other
than a newline (the `.` class), then match `kw` case-insensitively. -/
def findAfterDots (kw : List Char) : List Char → List (List Char)
  | [] =>
    match matchKw kw [] with
    | some r => [r]
    | none => []
  | c :: cs =>
    (match matchKw kw (c :: cs) with
     | some r => [r]
     | none => []) ++ (if c = '\n' then [] else findAfterDots kw cs)

/-- Search as `re.search` for a pattern with no word-boundary test: try the matcher
at every position of the text. -/
def searchNoCtx (f : List Char → Bool) : List Char → Bool
  | [] => f []
  | c :: cs => f (c :: cs) || searchNoCtx f cs

/-- Search as `re.search` for a pattern whose matcher also inspects the preceding
character (for `\b`): try every position, threading that character. -/
def searchCtx (f : Option Char → List Char → Bool) (prev : Option Char) : List Char → Bool
  | [] => f prev []
  | c :: cs => f prev (c :: cs) || searchCtx f (some c) cs

/-- The step `\s+` followed by a non-space literal: at least one `\s`
character, then the rest of the run; fails on a non-space head. -/
def spacesPlus : List Char → Option (List Char)
  | [] => none
  | c :: cs => if isSpace c then some (skipSpaces cs) else none

/-- Matcher for one position of `SELECT\s+\*\s+FROM` (`IGNORECASE`). -/
def selStarFromAt (s : List Char) : Bool :=
  match matchKw "SELECT".toList s with
  | some r1 =>
    (match spacesPlus r1 with
     | some ('*' :: r2) =>
       (match spacesPlus r2 with
        | some r3 => (matchKw "FROM".toList r3).isSome
        | none => false)
     | _ => false)
  | none => false

/-- Matcher for one position of `SELECT\s+\*\s+EXCEPT\s*\(` (`IGNORECASE`). -/
def selStarExceptAt (s : List Char) : Bool :=
  match matchKw "SELECT".toList s with
  | some r1 =>
    (match spacesPlus r1 with
     | some ('*' :: r2) =>
       (match spacesPlus r2 with
        | some r3 =>
          (match matchKw "EXCEPT".toList r3 with
           | some r4 =>
             (match skipSpaces r4 with
              | '(' :: _ => true
              | _ => false)
           | none => false)
        | none => false)
     | _ => false)
  | none => false

/-- Tail step `.*?\)`: a closing parenthesis reachable without crossing a
newline. -/
def findCloseParen : List Char → Bool
  | [] => false
  | c :: cs => c = ')' || (if c = '\n' then false else findCloseParen cs)

/-- The aggregation keywords of the alternation `(COUNT|SUM|AVG|MIN|MAX)`. -/
def aggKws : List (List Char) :=
  ["COUNT".toList, "SUM".toList, "AVG".toList, "MIN".toList, "MAX".toList]

/-- Matcher for one position of
`\(\s*SELECT.*?(COUNT|SUM|AVG|MIN|MAX).*?FROM.*?\)` (`IGNORECASE`). -/
def aggSubAt (s : List Char) : Bool :=
  match s with
  | '(' :: r =>
    (match matchKw "SELECT".toList (skipSpaces r) with
     | some r1 =>
       aggKws.any fun kw =>
         (findAfterDots kw r1).any fun r2 =>
           (findAfterDots "FROM".toList r2).any fun r3 =>
             findCloseParen r3
     | none => false)
  | _ => false

/-- Matcher for one position of `\(\s*SELECT\s+DISTINCT.*?FROM.*?\)`
(`IGNORECASE`). -/
def distinctSubAt (s : List Char) : Bool :=
  match s with
  | '(' :: r =>
    (match matchKw "SELECT".toList (skipSpaces r) with
     | some r1 =>
       (match spacesPlus r1 with
        | some r2 =>
          (match matchKw "DISTINCT".toList r2 with
           | some r3 =>
             (findAfterDots "FROM".toList r3).any fun r4 =>
               findCloseParen r4
           | none => false)
        | none => false)
     | none => false)
  | _ => false

/-- Matcher for one position of `\bORDER\s+BY\b` (`IGNORECASE`), given the
preceding character. -/
def orderByAt (prev : Option Char) (s : List Char) : Bool :=
  nonWordOpt prev &&
    (match matchKw "ORDER".toList s with
     | some r1 =>
       (match spacesPlus r1 with
        | some r2 =>
          (match matchKw "BY".toList r2 with
           | some r3 => headNonWord r3
           | none => false)
        | none => false)
     | none => false)

/-- Matcher for one position of `\bLIMIT\b\s+\d+` (`IGNORECASE`), given the
preceding character. -/
def limitNumAt (prev : Option Char) (s : List Char) : Bool :=
  nonWordOpt prev &&
    (match matchKw "LIMIT".toList s with
     | some r1 =>
       (match spacesPlus r1 with
        | some (d :: _) => d.isDigit
        | _ => false)
     | none => false)

/-- One position of `re.findall (\b kw \b)`: boundary before, the word,
boundary after. -/
def wordAt (w : List Char) (prev : Option Char) (s : List Char) : Bool :=
  nonWordOpt prev &&
    (match matchKw w s with
     | some r => headNonWord r
     | none => false)

/-- Count of `re.findall(\b w \b, s, IGNORECASE)`: the matches never
overlap, so this is the number of positions where the word matches. -/
def countWordFrom (w : List Char) (prev : Option Char) : List Char → Nat
  | [] => 0
  | c :: cs => (if wordAt w prev (c :: cs) then 1 else 0) + countWordFrom w (some c) cs

/-- Count of standalone occurrences of the word `w` in `s`. -/
def countWord (w : List Char) (s : List Char) : Nat :=
  countWordFrom w none s

namespace AntiPatterns

/-- Predicate `AntiPatterns.select_star` of `analizer/anti_patterns.py`. -/
def select_star (query : String) : Bool :=
  searchNoCtx selStarFromAt query.toList && !searchNoCtx selStarExceptAt query.toList

/-- Predicate `AntiPatterns.multiple_with_clauses`: more than three standalone `WITH`. -/
def multiple_with_clauses (query : String) : Bool :=
  decide (countWord "WITH".toList query.toList > 3)

/-- Predicate `AntiPatterns.subquery_with_aggregation`. -/
def subquery_with_aggregation (query : String) : Bool :=
  searchNoCtx aggSubAt query.toList

/-- Predicate `AntiPatterns.subquery_with_distinct`. -/
def subquery_with_distinct (query : String) : Bool :=
  searchNoCtx distinctSubAt query.toList

/-- Predicate `AntiPatterns.too_many_joins`: more than three standalone `JOIN`. -/
def too_many_joins (query : String) : Bool :=
  decide (countWord "JOIN".toList query.toList > 3)

/-- Predicate `AntiPatterns.order_by_without_limit`. -/
def order_by_without_limit (query : String) : Bool :=
  searchCtx orderByAt none query.toList && !searchCtx limitNumAt none query.toList

end AntiPatterns

/-- True when `pat` is a (case-sensitive) prefix of `s`. -/
def isPre : List Char → List Char → Bool
  | [], _ => true
  | _ :: _, [] => false
  | p :: ps, c :: cs => p = c && isPre ps cs

/-- Python `str.replace(pat, rep)`: scan left to right; on a match, emit
`rep`, consume the match, and continue after it. The skip counter carries
the still-to-consume part of a match across the structural recursion. -/
def repAux (pat rep : List Char) : Nat → List Char → List Char
  | _ + 1, [] => []
  | k + 1, _ :: cs => repAux pat rep k cs
  | 0, [] => []
  | 0, c :: cs =>
    if isPre pat (c :: cs) then rep ++ repAux pat rep (pat.length - 1) cs
    else c :: repAux pat rep 0 cs

/-- Replace every occurrence of `pat` by `rep`, left to right. -/
def replaceAll (pat rep : List Char) (s : List Char) : List Char :=
  repAux pat rep 0 s

/-- Python `str.upper()` (ASCII). -/
def pyUpper (s : String) : String :=
  String.mk (s.toList.map Char.toUpper)

/-- Python substring test `pat in s`. -/
def containsSub (s pat : List Char) : Bool :=
  searchNoCtx (fun t => isPre pat t) s

namespace RuleBasedQueryOptimizer

/-- Transform `RuleBasedQueryOptimizer.optimize_select_star` of
`analizer/query_optimizer.py`. -/
def optimize_select_star (query : String) : String :=
  String.mk (replaceAll "SELECT *".toList
    "SELECT id, name, value, timestamp /* specify only needed columns */".toList
    query.toList)

/-- Transform `RuleBasedQueryOptimizer.optimize_with_clauses`. -/
def optimize_with_clauses (query : String) : String :=
  "-- Recommendation: Consider combining related WITH clauses\n" ++ query

/-- Transform `RuleBasedQueryOptimizer.optimize_subquery_with_aggregation`. -/
def optimize_subquery_with_aggregation (query : String) : String :=
  "-- Recommendation: Consider using JOIN with pre-aggregated tables instead of subqueries\n" ++ query

/-- Transform `RuleBasedQueryOptimizer.optimize_distinct_in_subquery`. -/
def optimize_distinct_in_subquery (query : String) : String :=
  "-- Recommendation: Consider using EXISTS or GROUP BY instead of DISTINCT in subqueries\n" ++ query

/-- Transform `RuleBasedQueryOptimizer.add_limit_to_order_by`. -/
def add_limit_to_order_by (query : String) : String :=
  if containsSub (pyUpper query).toList "ORDER BY".toList &&
      !containsSub (pyUpper query).toList "LIMIT".toList then
    query ++ "\nLIMIT 1000 /* Added limit to improve performance */"
  else
    query

end RuleBasedQueryOptimizer

/-- The rule-based analysis mapping built by `analyze_query` in `app.py`
(and `BigQueryAnalysisModel.analyze_query` in `mcp_server_llm.py`): an
insertion-ordered dictionary, modelled as an association list. -/
def ruleAnalysis (q : String) : List (String × Bool) :=
  [("select_star", AntiPatterns.select_star q),
   ("multiple_with_clauses", AntiPatterns.multiple_with_clauses q),
   ("subquery_with_aggregation", AntiPatterns.subquery_with_aggregation q),
   ("subquery_with_distinct", AntiPatterns.subquery_with_distinct q),
   ("too_many_joins", AntiPatterns.too_many_joins q),
   ("order_by_without_limit", AntiPatterns.order_by_without_limit q)]

/-- The `if issue == ... : explanations[issue] = ...` chain of
`analyze_query`. -/
def explanationFor (issue : String) : Option String :=
  if issue = "select_star" then
    some "Using SELECT * retrieves unnecessary columns, increasing I/O and network load."
  else if issue = "multiple_with_clauses" then
    some "Too many WITH clauses can make query optimization difficult."
  else if issue = "subquery_with_aggregation" then
    some "Subqueries with aggregation can be inefficient - consider pre-aggregation."
  else if issue = "subquery_with_distinct" then
    some "DISTINCT in subqueries can be expensive - consider alternatives."
  else if issue = "too_many_joins" then
    some "Having many joins can lead to performance issues - consider denormalizing."
  else if issue = "order_by_without_limit" then
    some "ORDER BY without LIMIT sorts the entire result set, which is costly."
  else
    none

/-- The explanation-building loop of `analyze_query`: for each detected
issue, in mapping order, record its fixed explanation string. -/
def buildExpl (l : List (String × Bool)) : List (String × String) :=
  l.foldl
    (fun acc p =>
      if p.2 then
        match explanationFor p.1 with
        | some e => acc ++ [(p.1, e)]
        | none => acc
      else acc)
    []

/-- The result dictionary of the rule-based `analyze_query`. -/
structure AnalysisResult where
  query_text : String
  analysis : List (String × Bool)
  explanations : List (String × String)
  issues_found : Bool

/-- The rule-based fallback path of `analyze_query` in `app.py`. -/
def analyze_query (q : String) : AnalysisResult :=
  { query_text := q
    analysis := ruleAnalysis q
    explanations := buildExpl (ruleAnalysis q)
    issues_found := (ruleAnalysis q).any (fun p => p.2) }

/-- Python `d.get(k, False)` on the diagnosis dictionary: first binding of
the key, `false` when absent. -/
def dictGetB (d : List (String × Bool)) (k : String) : Bool :=
  match d.find? (fun p => p.1 = k) with
  | some p => p.2
  | none => false

/-- The rule-based fallback path of `optimize_query` in `app.py` (and of
`BigQueryAnalysisModel.optimize_query`): apply the transforms in the fixed
source order, gated on `analysis.get(issue, False)`; `too_many_joins` is
never consulted. -/
def optimize_query (query_text : String) (analysis : List (String × Bool)) : String :=
  let q1 := if dictGetB analysis "select_star" then
      RuleBasedQueryOptimizer.optimize_select_star query_text else query_text
  let q2 := if dictGetB analysis "multiple_with_clauses" then
      RuleBasedQueryOptimizer.optimize_with_clauses q1 else q1
  let q3 := if dictGetB analysis "subquery_with_aggregation" then
      RuleBasedQueryOptimizer.optimize_subquery_with_aggregation q2 else q2
  let q4 := if dictGetB analysis "subquery_with_distinct" then
      RuleBasedQueryOptimizer.optimize_distinct_in_subquery q3 else q3
  if dictGetB analysis "order_by_without_limit" then
    RuleBasedQueryOptimizer.add_limit_to_order_by q4 else q4

/-- True when no character of the list is a newline: the region a `.`
class can span. -/
def noNL (l : List Char) : Bool :=
  l.all fun c => !(c = '\n')

/-- The character just before a match position reached after consuming
`a`, starting from preceding character `prev`. -/
def ctxOf (prev : Option Char) (a : List Char) : Option Char :=
  match a.getLast? with
  | some c => some c
  | none => prev

/-- The spec's reading of the `select_star` positive condition: the text
contains `SELECT * FROM`, case-insensitive, with nonempty whitespace runs
for the separators. -/
def SelStarFromSpan (s : List Char) : Prop :=
  ∃ a m1 w1 w2 m2 b,
    s = a ++ m1 ++ w1 ++ '*' :: (w2 ++ m2 ++ b) ∧
    ciEq m1 "SELECT".toList = true ∧ w1 ≠ [] ∧ w1.all isSpace = true ∧
    w2 ≠ [] ∧ w2.all isSpace = true ∧ ciEq m2 "FROM".toList = true

/-- The spec's reading of the `select_star` exemption: the text contains
`SELECT * EXCEPT (`, case-insensitive, with a possibly empty whitespace
run before the parenthesis. -/
def SelStarExceptSpan (s : List Char) : Prop :=
  ∃ a m1 w1 w2 m2 w3 b,
    s = a ++ m1 ++ w1 ++ '*' :: (w2 ++ m2 ++ w3 ++ '(' :: b) ∧
    ciEq m1 "SELECT".toList = true ∧ w1 ≠ [] ∧ w1.all isSpace = true ∧
    w2 ≠ [] ∧ w2.all isSpace = true ∧ ciEq m2 "EXCEPT".toList = true ∧
    w3.all isSpace = true

/-- The spec's reading of `order_by_without_limit`'s positive condition:
a standalone `ORDER BY` phrase, case-insensitive. -/
def OrderBySpan (s : List Char) : Prop :=
  ∃ a m1 w m2 b,
    s = a ++ m1 ++ w ++ m2 ++ b ∧
    nonWordOpt a.getLast? = true ∧ ciEq m1 "ORDER".toList = true ∧
    w ≠ [] ∧ w.all isSpace = true ∧ ciEq m2 "BY".toList = true ∧
    headNonWord b = true

/-- The spec's reading of the `LIMIT` exemption: a standalone `LIMIT`
keyword followed by whitespace and a digit, case-insensitive. -/
def LimitNumSpan (s : List Char) : Prop :=
  ∃ a m w d b,
    s = a ++ m ++ w ++ d :: b ∧
    nonWordOpt a.getLast? = true ∧ ciEq m "LIMIT".toList = true ∧
    w ≠ [] ∧ w.all isSpace = true ∧ d.isDigit = true

/-- The qualifying parenthesized aggregating subquery span, with the
restriction the source's dot classes impose: the three gap segments
contain no newline. -/
def AggSubSpanNoNL (s : List Char) : Prop :=
  ∃ a w m1 u g v m2 x b kw,
    kw ∈ aggKws ∧
    s = a ++ '(' :: (w ++ m1 ++ u ++ g ++ v ++ m2 ++ x ++ ')' :: b) ∧
    w.all isSpace = true ∧ ciEq m1 "SELECT".toList = true ∧
    noNL u = true ∧ ciEq g kw = true ∧ noNL v = true ∧
    ciEq m2 "FROM".toList = true ∧ noNL x = true

/-- Modelled from the spec: the claim's layout-free parenthesized
aggregating subquery span — a parenthesized `SELECT ... FROM ...` span with
an aggregation keyword between the `SELECT` and the `FROM`, with no
constraint on how the span is laid out. -/
def AggSubSpanAny (s : List Char) : Prop :=
  ∃ a w m1 u g v m2 x b kw,
    kw ∈ aggKws ∧
    s = a ++ '(' :: (w ++ m1 ++ u ++ g ++ v ++ m2 ++ x ++ ')' :: b) ∧
    w.all isSpace = true ∧ ciEq m1 "SELECT".toList = true ∧
    ciEq g kw = true ∧ ciEq m2 "FROM".toList = true

/-- The uppercased text of `q` contains `pat` as a substring: Python
`pat in query.upper()`. -/
def UpContains (q pat : String) : Prop :=
  ∃ a b, (pyUpper q).toList = a ++ pat.toList ++ b

/-- Modelled from the spec: the explanation table of section 4.1, one
fixed string per issue name. -/
def specExplanation (issue : String) : String :=
  if issue = "select_star" then
    "Using SELECT * retrieves unnecessary columns, increasing I/O and network load."
  else if issue = "multiple_with_clauses" then
    "Too many WITH clauses can make query optimization difficult."
  else if issue = "subquery_with_aggregation" then
    "Subqueries with aggregation can be inefficient - consider pre-aggregation."
  else if issue = "subquery_with_distinct" then
    "DISTINCT in subqueries can be expensive - consider alternatives."
  else if issue = "too_many_joins" then
    "Having many joins can lead to performance issues - consider denormalizing."
  else if issue = "order_by_without_limit" then
    "ORDER BY without LIMIT sorts the entire result set, which is costly."
  else
    ""


/-! ## Inversion lemmas for the matcher combinators -/

theorem ciEq_nil_right {m : List Char} : ciEq m [] = true ↔ m = [] := by
  cases m <;> simp [ciEq]

theorem ciEq_nil_left {kw : List Char} : ciEq [] kw = true ↔ kw = [] := by
  cases kw <;> simp [ciEq]

theorem ciEq_cons_right {m : List Char} {k : Char} {ks : List Char} :
    ciEq m (k :: ks) = true ↔
      ∃ c m', m = c :: m' ∧ c.toLower = k.toLower ∧ ciEq m' ks = true := by
  cases m with
  | nil => simp [ciEq]
  | cons c m' =>
    simp only [ciEq, Bool.and_eq_true, decide_eq_true_eq, List.cons.injEq]
    constructor
    · rintro ⟨h1, h2⟩; exact ⟨c, m', ⟨rfl, rfl⟩, h1, h2⟩
    · rintro ⟨c0, m0, ⟨rfl, rfl⟩, h1, h2⟩; exact ⟨h1, h2⟩

theorem matchKw_append {kw m : List Char} (h : ciEq m kw = true) (r : List Char) :
    matchKw kw (m ++ r) = some r := by
  induction kw generalizing m with
  | nil => rw [ciEq_nil_right] at h; subst h; rfl
  | cons k ks ih =>
    rcases ciEq_cons_right.mp h with ⟨c, m', rfl, hc, hm⟩
    rw [List.cons_append]
    simp only [matchKw]
    rw [if_pos hc.symm]
    exact ih hm

theorem matchKw_inv {kw s r : List Char} (h : matchKw kw s = some r) :
    ∃ m, s = m ++ r ∧ ciEq m kw = true := by
  induction kw generalizing s with
  | nil =>
    simp only [matchKw, Option.some.injEq] at h
    exact ⟨[], by simp [h], by simp [ciEq]⟩
  | cons k ks ih =>
    cases s with
    | nil => simp [matchKw] at h
    | cons c cs =>
      simp only [matchKw] at h
      split at h
      · next hkc =>
        rcases ih h with ⟨m', rfl, hm⟩
        exact ⟨c :: m', rfl, by simp [ciEq, hkc.symm, hm]⟩
      · exact absurd h (by simp)

theorem skipSpaces_split (s : List Char) :
    ∃ w, s = w ++ skipSpaces s ∧ w.all isSpace = true := by
  induction s with
  | nil => exact ⟨[], rfl, rfl⟩
  | cons c cs ih =>
    cases hc : isSpace c with
    | true =>
      rcases ih with ⟨w, hw, ha⟩
      have h1 : skipSpaces (c :: cs) = skipSpaces cs := by simp [skipSpaces, hc]
      refine ⟨c :: w, ?_, ?_⟩
      · rw [h1, List.cons_append]; exact congrArg (List.cons c) hw
      · simp [List.all_cons, hc, ha]
    | false =>
      refine ⟨[], ?_, rfl⟩
      simp [skipSpaces, hc]

theorem headNS_skipSpaces (s : List Char) : headNS (skipSpaces s) = true := by
  induction s with
  | nil => rfl
  | cons c cs ih =>
    cases hc : isSpace c with
    | true => simpa [skipSpaces, hc] using ih
    | false => simp [skipSpaces, hc, headNS]

theorem skipSpaces_append {w r : List Char} (hw : w.all isSpace = true)
    (hr : headNS r = true) : skipSpaces (w ++ r) = r := by
  induction w with
  | nil =>
    cases r with
    | nil => rfl
    | cons c cs =>
      simp only [headNS, Bool.not_eq_true'] at hr
      simp [skipSpaces, hr]
  | cons c w' ih =>
    simp only [List.all_cons, Bool.and_eq_true] at hw
    rw [List.cons_append]
    have h1 : skipSpaces (c :: (w' ++ r)) = skipSpaces (w' ++ r) := by
      simp [skipSpaces, hw.1]
    rw [h1]
    exact ih hw.2

theorem isPre_iff {pat s : List Char} : isPre pat s = true ↔ ∃ b, s = pat ++ b := by
  induction pat generalizing s with
  | nil => simp [isPre]
  | cons p ps ih =>
    cases s with
    | nil => simp [isPre]
    | cons c cs =>
      simp only [isPre, Bool.and_eq_true, decide_eq_true_eq, ih, List.cons_append]
      constructor
      · rintro ⟨rfl, b, rfl⟩; exact ⟨b, rfl⟩
      · rintro ⟨b, h⟩
        injection h with h1 h2
        exact ⟨h1.symm, b, h2⟩

theorem isPre_self_append (l t : List Char) : isPre l (l ++ t) = true :=
  isPre_iff.mpr ⟨t, rfl⟩

theorem searchNoCtx_iff {f : List Char → Bool} {s : List Char} :
    searchNoCtx f s = true ↔ ∃ a b, s = a ++ b ∧ f b = true := by
  induction s with
  | nil =>
    constructor
    · intro h; exact ⟨[], [], rfl, h⟩
    · rintro ⟨a, b, hab, hf⟩
      rcases List.append_eq_nil.mp hab.symm with ⟨rfl, rfl⟩
      exact hf
  | cons c cs ih =>
    simp only [searchNoCtx, Bool.or_eq_true]
    constructor
    · rintro (h | h)
      · exact ⟨[], c :: cs, rfl, h⟩
      · rcases ih.mp h with ⟨a, b, hab, hf⟩
        exact ⟨c :: a, b, by rw [List.cons_append, hab], hf⟩
    · rintro ⟨a, b, hab, hf⟩
      cases a with
      | nil =>
        rw [List.nil_append] at hab
        subst hab
        exact Or.inl hf
      | cons a0 a' =>
        injection hab with h1 h2
        subst h1
        exact Or.inr (ih.mpr ⟨a', b, h2, hf⟩)

theorem ctxOf_cons (prev : Option Char) (c : Char) (a : List Char) :
    ctxOf prev (c :: a) = ctxOf (some c) a := by
  cases a with
  | nil => rfl
  | cons d a' =>
    simp only [ctxOf, List.getLast?_cons_cons]
    cases h : (d :: a').getLast? with
    | none => simp at h
    | some e => rfl

theorem ctxOf_none (a : List Char) : ctxOf none a = a.getLast? := by
  cases h : a.getLast? <;> simp [ctxOf, h]

theorem searchCtx_iff {f : Option Char → List Char → Bool} {s : List Char}
    {prev : Option Char} :
    searchCtx f prev s = true ↔ ∃ a b, s = a ++ b ∧ f (ctxOf prev a) b = true := by
  induction s generalizing prev with
  | nil =>
    constructor
    · intro h; exact ⟨[], [], rfl, h⟩
    · rintro ⟨a, b, hab, hf⟩
      rcases List.append_eq_nil.mp hab.symm with ⟨rfl, rfl⟩
      exact hf
  | cons c cs ih =>
    simp only [searchCtx, Bool.or_eq_true]
    constructor
    · rintro (h | h)
      · exact ⟨[], c :: cs, rfl, h⟩
      · rcases ih.mp h with ⟨a, b, hab, hf⟩
        exact ⟨c :: a, b, by rw [List.cons_append, hab], by rwa [ctxOf_cons]⟩
    · rintro ⟨a, b, hab, hf⟩
      cases a with
      | nil =>
        rw [List.nil_append] at hab
        subst hab
        exact Or.inl hf
      | cons a0 a' =>
        injection hab with h1 h2
        subst h1
        rw [ctxOf_cons] at hf
        exact Or.inr (ih.mpr ⟨a', b, h2, hf⟩)

theorem findAfterDots_mem {kw : List Char} (hk : kw ≠ []) {s r : List Char} :
    r ∈ findAfterDots kw s ↔
      ∃ u m, s = u ++ m ++ r ∧ noNL u = true ∧ ciEq m kw = true := by
  induction s with
  | nil =>
    have h0 : matchKw kw [] = none := by
      cases kw with
      | nil => exact absurd rfl hk
      | cons k ks => rfl
    simp only [findAfterDots, h0, List.not_mem_nil, false_iff]
    rintro ⟨u, m, hum, _, hcm⟩
    rcases List.append_eq_nil.mp hum.symm with ⟨h1, rfl⟩
    rcases List.append_eq_nil.mp h1 with ⟨rfl, rfl⟩
    exact hk (ciEq_nil_left.mp hcm)
  | cons c cs ih =>
    simp only [findAfterDots, List.mem_append]
    constructor
    · rintro (h | h)
      · have hm : matchKw kw (c :: cs) = some r := by
          rcases hmk : matchKw kw (c :: cs) with _ | r0 <;> rw [hmk] at h
          · simp at h
          · simp only [List.mem_singleton] at h
            rw [h]
        rcases matchKw_inv hm with ⟨m, hsm, hcm⟩
        exact ⟨[], m, by simpa using hsm, rfl, hcm⟩
      · by_cases hc : c = '\n'
        · rw [if_pos hc] at h
          simp at h
        · rw [if_neg hc] at h
          rcases ih.mp h with ⟨u, m, hsm, hnl, hcm⟩
          refine ⟨c :: u, m, ?_, ?_, hcm⟩
          · rw [List.cons_append, List.cons_append, hsm]
          · simpa [noNL, hc] using hnl
    · rintro ⟨u, m, hs, hnl, hcm⟩
      cases u with
      | nil =>
        left
        rw [List.nil_append] at hs
        have hmk : matchKw kw (c :: cs) = some r := by
          rw [hs]
          exact matchKw_append hcm r
        simp [hmk]
      | cons u0 u' =>
        right
        injection hs with h1 h2
        subst h1
        simp only [noNL, List.all_cons, Bool.and_eq_true, Bool.not_eq_true',
          decide_eq_false_iff_not] at hnl
        rw [if_neg hnl.1]
        exact ih.mpr ⟨u', m, h2, by simp [noNL, hnl.2], hcm⟩

theorem findCloseParen_iff {s : List Char} :
    findCloseParen s = true ↔ ∃ x b, s = x ++ ')' :: b ∧ noNL x = true := by
  induction s with
  | nil =>
    refine ⟨fun h => Bool.noConfusion h, ?_⟩
    rintro ⟨x, b, hx, _⟩
    cases x <;> simp at hx
  | cons c cs ih =>
    simp only [findCloseParen, Bool.or_eq_true, decide_eq_true_eq]
    constructor
    · rintro (rfl | h)
      · exact ⟨[], cs, rfl, rfl⟩
      · by_cases hc : c = '\n'
        · rw [if_pos hc] at h
          simp at h
        · rw [if_neg hc] at h
          rcases ih.mp h with ⟨x, b, hx, hnl⟩
          refine ⟨c :: x, b, ?_, ?_⟩
          · rw [List.cons_append, hx]
          · simpa [noNL, hc] using hnl
    · rintro ⟨x, b, hx, hnl⟩
      cases x with
      | nil =>
        injection hx with h1 _
        exact Or.inl h1
      | cons x0 x' =>
        injection hx with h1 h2
        subst h1
        simp only [noNL, List.all_cons, Bool.and_eq_true, Bool.not_eq_true',
          decide_eq_false_iff_not] at hnl
        right
        rw [if_neg hnl.1]
        exact ih.mpr ⟨x', b, h2, by simp [noNL, hnl.2]⟩

theorem isSpace_toLower {c : Char} (h : isSpace c = true) : c.toLower = c := by
  simp only [isSpace, Bool.or_eq_true, decide_eq_true_eq] at h
  rcases h with ((((h | h) | h) | h) | h) | h <;> subst h <;> decide

theorem isSpace_eq_false_of_isDigit {c : Char} (h : c.isDigit = true) :
    isSpace c = false := by
  cases hs : isSpace c with
  | false => rfl
  | true =>
    simp only [isSpace, Bool.or_eq_true, decide_eq_true_eq] at hs
    rcases hs with ((((h' | h') | h') | h') | h') | h' <;> subst h' <;>
      exact absurd h (by decide)

theorem ciEq_headNS {m : List Char} {k : Char} {ks : List Char}
    (h : ciEq m (k :: ks) = true) (hk : isSpace k.toLower = false) (b : List Char) :
    headNS (m ++ b) = true := by
  rcases ciEq_cons_right.mp h with ⟨c, m', rfl, hc, _⟩
  rw [List.cons_append]
  simp only [headNS, Bool.not_eq_true']
  cases hcs : isSpace c with
  | false => rfl
  | true =>
    have h2 : c.toLower = c := isSpace_toLower hcs
    rw [h2] at hc
    rw [hc] at hcs
    rw [hcs] at hk
    exact Bool.noConfusion hk

theorem spacesPlus_append {w r : List Char} (hne : w ≠ []) (hw : w.all isSpace = true)
    (hr : headNS r = true) : spacesPlus (w ++ r) = some r := by
  cases w with
  | nil => exact absurd rfl hne
  | cons c w' =>
    simp only [List.all_cons, Bool.and_eq_true] at hw
    rw [List.cons_append]
    simp only [spacesPlus]
    rw [if_pos hw.1, skipSpaces_append hw.2 hr]

theorem spacesPlus_inv {s r : List Char} (h : spacesPlus s = some r) :
    (∃ w, s = w ++ r ∧ w ≠ [] ∧ w.all isSpace = true) ∧ headNS r = true := by
  cases s with
  | nil => exact absurd h (by simp [spacesPlus])
  | cons c cs =>
    simp only [spacesPlus] at h
    split at h
    · next hc =>
      injection h with h1
      subst h1
      rcases skipSpaces_split cs with ⟨w', hw', ha'⟩
      refine ⟨⟨c :: w', ?_, by simp, by simp [List.all_cons, hc, ha']⟩,
        headNS_skipSpaces cs⟩
      rw [List.cons_append, ← hw']
    · exact absurd h (by simp)

theorem selStarFromAt_iff {s : List Char} :
    selStarFromAt s = true ↔
      ∃ m1 w1 w2 m2 b,
        s = m1 ++ w1 ++ '*' :: (w2 ++ m2 ++ b) ∧
        ciEq m1 "SELECT".toList = true ∧ w1 ≠ [] ∧ w1.all isSpace = true ∧
        w2 ≠ [] ∧ w2.all isSpace = true ∧ ciEq m2 "FROM".toList = true := by
  constructor
  · intro h
    unfold selStarFromAt at h
    split at h
    · next r1 heq1 =>
      split at h
      · next r2 heq2 =>
        split at h
        · next r3 heq3 =>
          rcases Option.isSome_iff_exists.mp h with ⟨b, hb⟩
          rcases matchKw_inv heq1 with ⟨m1, rfl, hm1⟩
          rcases (spacesPlus_inv heq2).1 with ⟨w1, hw1eq, hw1ne, hw1⟩
          rcases (spacesPlus_inv heq3).1 with ⟨w2, hw2eq, hw2ne, hw2⟩
          rcases matchKw_inv hb with ⟨m2, hm2eq, hm2⟩
          refine ⟨m1, w1, w2, m2, b, ?_, hm1, hw1ne, hw1, hw2ne, hw2, hm2⟩
          rw [hw1eq, hw2eq, hm2eq]
          simp [List.append_assoc]
        · exact absurd h (by simp)
      · exact absurd h (by simp)
    · exact absurd h (by simp)
  · rintro ⟨m1, w1, w2, m2, b, rfl, hm1, hw1ne, hw1, hw2ne, hw2, hm2⟩
    unfold selStarFromAt
    have e1 : m1 ++ w1 ++ '*' :: (w2 ++ m2 ++ b) =
        m1 ++ (w1 ++ ('*' :: (w2 ++ (m2 ++ b)))) := by
      simp [List.append_assoc]
    rw [e1]
    have hns1 : headNS ('*' :: (w2 ++ (m2 ++ b))) = true := by simp [headNS, isSpace]
    have hns2 : headNS (m2 ++ b) = true := ciEq_headNS hm2 (by decide) b
    simp only [matchKw_append hm1, spacesPlus_append hw1ne hw1 hns1,
      spacesPlus_append hw2ne hw2 hns2, matchKw_append hm2, Option.isSome_some]

theorem selStarExceptAt_iff {s : List Char} :
    selStarExceptAt s = true ↔
      ∃ m1 w1 w2 m2 w3 b,
        s = m1 ++ w1 ++ '*' :: (w2 ++ m2 ++ w3 ++ '(' :: b) ∧
        ciEq m1 "SELECT".toList = true ∧ w1 ≠ [] ∧ w1.all isSpace = true ∧
        w2 ≠ [] ∧ w2.all isSpace = true ∧ ciEq m2 "EXCEPT".toList = true ∧
        w3.all isSpace = true := by
  constructor
  · intro h
    unfold selStarExceptAt at h
    split at h
    · next r1 heq1 =>
      split at h
      · next r2 heq2 =>
        split at h
        · next r3 heq3 =>
          split at h
          · next r4 heq4 =>
            split at h
            · next rest heq5 =>
              rcases matchKw_inv heq1 with ⟨m1, rfl, hm1⟩
              rcases (spacesPlus_inv heq2).1 with ⟨w1, hw1eq, hw1ne, hw1⟩
              rcases (spacesPlus_inv heq3).1 with ⟨w2, hw2eq, hw2ne, hw2⟩
              rcases matchKw_inv heq4 with ⟨m2, hm2eq, hm2⟩
              rcases skipSpaces_split r4 with ⟨w3, hw3eq, hw3⟩
              rw [heq5] at hw3eq
              refine ⟨m1, w1, w2, m2, w3, rest, ?_, hm1, hw1ne, hw1, hw2ne, hw2,
                hm2, hw3⟩
              rw [hw1eq, hw2eq, hm2eq, hw3eq]
              simp [List.append_assoc]
            · exact absurd h (by simp)
          · exact absurd h (by simp)
        · exact absurd h (by simp)
      · exact absurd h (by simp)
    · exact absurd h (by simp)
  · rintro ⟨m1, w1, w2, m2, w3, b, rfl, hm1, hw1ne, hw1, hw2ne, hw2, hm2, hw3⟩
    unfold selStarExceptAt
    have e1 : m1 ++ w1 ++ '*' :: (w2 ++ m2 ++ w3 ++ '(' :: b) =
        m1 ++ (w1 ++ ('*' :: (w2 ++ (m2 ++ (w3 ++ '(' :: b))))) := by
      simp [List.append_assoc]
    rw [e1]
    have hns1 : headNS ('*' :: (w2 ++ (m2 ++ (w3 ++ '(' :: b)))) = true := by
      simp [headNS, isSpace]
    have hns2 : headNS (m2 ++ (w3 ++ '(' :: b)) = true :=
      ciEq_headNS hm2 (by decide) (w3 ++ '(' :: b)
    have hns3 : headNS ('(' :: b) = true := by simp [headNS, isSpace]
    simp only [matchKw_append hm1, spacesPlus_append hw1ne hw1 hns1,
      spacesPlus_append hw2ne hw2 hns2, matchKw_append hm2,
      skipSpaces_append hw3 hns3]

theorem orderByAt_iff {prev : Option Char} {s : List Char} :
    orderByAt prev s = true ↔
      nonWordOpt prev = true ∧
        ∃ m1 w m2 b,
          s = m1 ++ w ++ m2 ++ b ∧
          ciEq m1 "ORDER".toList = true ∧ w ≠ [] ∧ w.all isSpace = true ∧
          ciEq m2 "BY".toList = true ∧ headNonWord b = true := by
  constructor
  · intro h
    unfold orderByAt at h
    rw [Bool.and_eq_true] at h
    obtain ⟨hnw, h⟩ := h
    refine ⟨hnw, ?_⟩
    split at h
    · next r1 heq1 =>
      split at h
      · next r2 heq2 =>
        split at h
        · next r3 heq3 =>
          rcases matchKw_inv heq1 with ⟨m1, rfl, hm1⟩
          rcases (spacesPlus_inv heq2).1 with ⟨w, hweq, hwne, hw⟩
          rcases matchKw_inv heq3 with ⟨m2, hm2eq, hm2⟩
          refine ⟨m1, w, m2, r3, ?_, hm1, hwne, hw, hm2, h⟩
          rw [hweq, hm2eq]
          simp [List.append_assoc]
        · exact absurd h (by simp)
      · exact absurd h (by simp)
    · exact absurd h (by simp)
  · rintro ⟨hnw, m1, w, m2, b, rfl, hm1, hwne, hw, hm2, hb⟩
    unfold orderByAt
    have e1 : m1 ++ w ++ m2 ++ b = m1 ++ (w ++ (m2 ++ b)) := by
      simp [List.append_assoc]
    rw [e1]
    have hns : headNS (m2 ++ b) = true := ciEq_headNS hm2 (by decide) b
    simp only [hnw, Bool.true_and, matchKw_append hm1,
      spacesPlus_append hwne hw hns, matchKw_append hm2, hb]

theorem limitNumAt_iff {prev : Option Char} {s : List Char} :
    limitNumAt prev s = true ↔
      nonWordOpt prev = true ∧
        ∃ m w d b,
          s = m ++ w ++ d :: b ∧
          ciEq m "LIMIT".toList = true ∧ w ≠ [] ∧ w.all isSpace = true ∧
          d.isDigit = true := by
  constructor
  · intro h
    unfold limitNumAt at h
    rw [Bool.and_eq_true] at h
    obtain ⟨hnw, h⟩ := h
    refine ⟨hnw, ?_⟩
    split at h
    · next r1 heq1 =>
      split at h
      · next d rest heq2 =>
        rcases matchKw_inv heq1 with ⟨m, rfl, hm⟩
        rcases (spacesPlus_inv heq2).1 with ⟨w, hweq, hwne, hw⟩
        refine ⟨m, w, d, rest, ?_, hm, hwne, hw, h⟩
        rw [hweq]
        simp [List.append_assoc]
      · exact absurd h (by simp)
    · exact absurd h (by simp)
  · rintro ⟨hnw, m, w, d, b, rfl, hm, hwne, hw, hd⟩
    unfold limitNumAt
    have e1 : m ++ w ++ d :: b = m ++ (w ++ (d :: b)) := by
      simp [List.append_assoc]
    rw [e1]
    have hns : headNS (d :: b) = true := by
      simp [headNS, isSpace_eq_false_of_isDigit hd]
    simp only [hnw, Bool.true_and, matchKw_append hm,
      spacesPlus_append hwne hw hns, hd]

theorem aggKws_ne_nil {kw : List Char} (h : kw ∈ aggKws) : kw ≠ [] := by
  simp only [aggKws, List.mem_cons, List.not_mem_nil, or_false] at h
  rcases h with rfl | rfl | rfl | rfl | rfl <;> decide

theorem aggSubAt_iff {s : List Char} :
    aggSubAt s = true ↔
      ∃ w m1 u g v m2 x b kw,
        kw ∈ aggKws ∧
        s = '(' :: (w ++ m1 ++ u ++ g ++ v ++ m2 ++ x ++ ')' :: b) ∧
        w.all isSpace = true ∧ ciEq m1 "SELECT".toList = true ∧
        noNL u = true ∧ ciEq g kw = true ∧ noNL v = true ∧
        ciEq m2 "FROM".toList = true ∧ noNL x = true := by
  constructor
  · intro h
    unfold aggSubAt at h
    split at h
    · next r =>
      split at h
      · next r1 heq1 =>
        rw [List.any_eq_true] at h
        rcases h with ⟨kw, hkw, h⟩
        rw [List.any_eq_true] at h
        rcases h with ⟨r2, hr2mem, h⟩
        rw [List.any_eq_true] at h
        rcases h with ⟨r3, hr3mem, h⟩
        rcases (findAfterDots_mem (aggKws_ne_nil hkw)).mp hr2mem with
          ⟨u, g, hr1eq, hu, hg⟩
        rcases (findAfterDots_mem (show "FROM".toList ≠ [] by decide)).mp hr3mem with
          ⟨v, m2, hr2eq, hv, hm2⟩
        rcases findCloseParen_iff.mp h with ⟨x, b, hr3eq, hx⟩
        rcases skipSpaces_split r with ⟨w, hweq, hwall⟩
        rcases matchKw_inv heq1 with ⟨m1, hskeq, hm1⟩
        have hr : r = w ++ (m1 ++ r1) := by rw [hweq, hskeq]
        refine ⟨w, m1, u, g, v, m2, x, b, kw, hkw, ?_, hwall, hm1, hu, hg, hv,
          hm2, hx⟩
        rw [hr, hr1eq, hr2eq, hr3eq]
        simp [List.append_assoc]
      · exact absurd h (by simp)
    · exact absurd h (by simp)
  · rintro ⟨w, m1, u, g, v, m2, x, b, kw, hkw, rfl, hwall, hm1, hu, hg, hv, hm2, hx⟩
    have e1 : w ++ m1 ++ u ++ g ++ v ++ m2 ++ x ++ ')' :: b =
        w ++ (m1 ++ (u ++ (g ++ (v ++ (m2 ++ (x ++ ')' :: b)))))) := by
      simp [List.append_assoc]
    simp only [aggSubAt, e1]
    have hns : headNS (m1 ++ (u ++ (g ++ (v ++ (m2 ++ (x ++ ')' :: b)))))) = true :=
      ciEq_headNS hm1 (by decide) _
    simp only [skipSpaces_append hwall hns, matchKw_append hm1]
    refine List.any_eq_true.mpr ⟨kw, hkw, ?_⟩
    refine List.any_eq_true.mpr ⟨v ++ (m2 ++ (x ++ ')' :: b)), ?_, ?_⟩
    · exact (findAfterDots_mem (aggKws_ne_nil hkw)).mpr
        ⟨u, g, by simp [List.append_assoc], hu, hg⟩
    refine List.any_eq_true.mpr ⟨x ++ ')' :: b, ?_, ?_⟩
    · exact (findAfterDots_mem (show "FROM".toList ≠ [] by decide)).mpr
        ⟨v, m2, by simp [List.append_assoc], hv, hm2⟩
    exact findCloseParen_iff.mpr ⟨x, b, rfl, hx⟩

theorem searchSelStarFrom_iff {s : List Char} :
    searchNoCtx selStarFromAt s = true ↔ SelStarFromSpan s := by
  rw [searchNoCtx_iff]
  constructor
  · rintro ⟨a, t, rfl, ht⟩
    rcases selStarFromAt_iff.mp ht with ⟨m1, w1, w2, m2, b, rfl, h1, h2, h3, h4, h5, h6⟩
    exact ⟨a, m1, w1, w2, m2, b, by simp [List.append_assoc], h1, h2, h3, h4, h5, h6⟩
  · rintro ⟨a, m1, w1, w2, m2, b, rfl, h1, h2, h3, h4, h5, h6⟩
    refine ⟨a, m1 ++ w1 ++ '*' :: (w2 ++ m2 ++ b), by simp [List.append_assoc], ?_⟩
    exact selStarFromAt_iff.mpr ⟨m1, w1, w2, m2, b, rfl, h1, h2, h3, h4, h5, h6⟩

theorem searchSelStarExcept_iff {s : List Char} :
    searchNoCtx selStarExceptAt s = true ↔ SelStarExceptSpan s := by
  rw [searchNoCtx_iff]
  constructor
  · rintro ⟨a, t, rfl, ht⟩
    rcases selStarExceptAt_iff.mp ht with
      ⟨m1, w1, w2, m2, w3, b, rfl, h1, h2, h3, h4, h5, h6, h7⟩
    exact ⟨a, m1, w1, w2, m2, w3, b, by simp [List.append_assoc],
      h1, h2, h3, h4, h5, h6, h7⟩
  · rintro ⟨a, m1, w1, w2, m2, w3, b, rfl, h1, h2, h3, h4, h5, h6, h7⟩
    refine ⟨a, m1 ++ w1 ++ '*' :: (w2 ++ m2 ++ w3 ++ '(' :: b),
      by simp [List.append_assoc], ?_⟩
    exact selStarExceptAt_iff.mpr
      ⟨m1, w1, w2, m2, w3, b, rfl, h1, h2, h3, h4, h5, h6, h7⟩

theorem searchOrderBy_iff {s : List Char} :
    searchCtx orderByAt none s = true ↔ OrderBySpan s := by
  rw [searchCtx_iff]
  constructor
  · rintro ⟨a, t, rfl, ht⟩
    rw [ctxOf_none] at ht
    rcases orderByAt_iff.mp ht with ⟨hnw, m1, w, m2, b, rfl, h1, h2, h3, h4, h5⟩
    exact ⟨a, m1, w, m2, b, by simp [List.append_assoc], hnw, h1, h2, h3, h4, h5⟩
  · rintro ⟨a, m1, w, m2, b, rfl, hnw, h1, h2, h3, h4, h5⟩
    refine ⟨a, m1 ++ w ++ m2 ++ b, by simp [List.append_assoc], ?_⟩
    rw [ctxOf_none]
    exact orderByAt_iff.mpr ⟨hnw, m1, w, m2, b, rfl, h1, h2, h3, h4, h5⟩

theorem searchLimitNum_iff {s : List Char} :
    searchCtx limitNumAt none s = true ↔ LimitNumSpan s := by
  rw [searchCtx_iff]
  constructor
  · rintro ⟨a, t, rfl, ht⟩
    rw [ctxOf_none] at ht
    rcases limitNumAt_iff.mp ht with ⟨hnw, m, w, d, b, rfl, h1, h2, h3, h4⟩
    exact ⟨a, m, w, d, b, by simp [List.append_assoc], hnw, h1, h2, h3, h4⟩
  · rintro ⟨a, m, w, d, b, rfl, hnw, h1, h2, h3, h4⟩
    refine ⟨a, m ++ w ++ d :: b, by simp [List.append_assoc], ?_⟩
    rw [ctxOf_none]
    exact limitNumAt_iff.mpr ⟨hnw, m, w, d, b, rfl, h1, h2, h3, h4⟩

theorem searchAggSub_iff {s : List Char} :
    searchNoCtx aggSubAt s = true ↔ AggSubSpanNoNL s := by
  rw [searchNoCtx_iff]
  constructor
  · rintro ⟨a, t, rfl, ht⟩
    rcases aggSubAt_iff.mp ht with
      ⟨w, m1, u, g, v, m2, x, b, kw, hkw, rfl, h1, h2, h3, h4, h5, h6, h7⟩
    exact ⟨a, w, m1, u, g, v, m2, x, b, kw, hkw, rfl, h1, h2, h3, h4, h5, h6, h7⟩
  · rintro ⟨a, w, m1, u, g, v, m2, x, b, kw, hkw, rfl, h1, h2, h3, h4, h5, h6, h7⟩
    exact ⟨a, '(' :: (w ++ m1 ++ u ++ g ++ v ++ m2 ++ x ++ ')' :: b), rfl,
      aggSubAt_iff.mpr ⟨w, m1, u, g, v, m2, x, b, kw, hkw, rfl, h1, h2, h3, h4, h5, h6, h7⟩⟩

/-! ## Claim theorems -/

/-- C5: for every query text, `select_star` returns true iff the text
contains `SELECT * FROM` (case-insensitive, whitespace-separated) and does
not contain `SELECT * EXCEPT (` (case-insensitive); in particular
`SELECT * FROM t` is flagged and `SELECT * EXCEPT (x) FROM t` is not. -/
theorem select_star_spec :
    (∀ q : String,
      AntiPatterns.select_star q = true ↔
        SelStarFromSpan q.toList ∧ ¬ SelStarExceptSpan q.toList) ∧
    AntiPatterns.select_star "SELECT * FROM t" = true ∧
    AntiPatterns.select_star "SELECT * EXCEPT (x) FROM t" = false := by
  refine ⟨?_, by decide, by decide⟩
  intro q
  unfold AntiPatterns.select_star
  constructor
  · intro h
    rw [Bool.and_eq_true] at h
    refine ⟨searchSelStarFrom_iff.mp h.1, fun hc => ?_⟩
    have hb := searchSelStarExcept_iff.mpr hc
    rw [hb] at h
    simp at h
  · rintro ⟨h1, h2⟩
    rw [Bool.and_eq_true]
    refine ⟨searchSelStarFrom_iff.mpr h1, ?_⟩
    cases hb : searchNoCtx selStarExceptAt q.toList with
    | false => rfl
    | true => exact absurd (searchSelStarExcept_iff.mp hb) h2

/-- C6: for every query text, `order_by_without_limit` returns true iff the
text contains the standalone phrase `ORDER BY` and does not contain the
standalone keyword `LIMIT` followed by whitespace and a numeral; the
concrete instances of the claim are also checked. -/
theorem order_by_without_limit_spec :
    (∀ q : String,
      AntiPatterns.order_by_without_limit q = true ↔
        OrderBySpan q.toList ∧ ¬ LimitNumSpan q.toList) ∧
    AntiPatterns.order_by_without_limit "SELECT a FROM t ORDER BY x" = true ∧
    AntiPatterns.order_by_without_limit "SELECT a FROM t ORDER BY x LIMIT 10" = false := by
  refine ⟨?_, by decide, by decide⟩
  intro q
  unfold AntiPatterns.order_by_without_limit
  constructor
  · intro h
    rw [Bool.and_eq_true] at h
    refine ⟨searchOrderBy_iff.mp h.1, fun hc => ?_⟩
    have hb := searchLimitNum_iff.mpr hc
    rw [hb] at h
    simp at h
  · rintro ⟨h1, h2⟩
    rw [Bool.and_eq_true]
    refine ⟨searchOrderBy_iff.mpr h1, ?_⟩
    cases hb : searchCtx limitNumAt none q.toList with
    | false => rfl
    | true => exact absurd (searchLimitNum_iff.mp hb) h2

/-- C3 counterexample: the text `( SELECT COUNT(x)\nFROM t )` contains a
parenthesized aggregating `SELECT ... FROM ...` span (laid out across two
lines), yet `subquery_with_aggregation` does not flag it, because the dot
classes of the pattern cannot cross the newline. -/
theorem subquery_with_aggregation_multiline_cex :
    AggSubSpanAny ("( SELECT COUNT(x)\nFROM t )").toList ∧
    AntiPatterns.subquery_with_aggregation "( SELECT COUNT(x)\nFROM t )" = false := by
  constructor
  · exact ⟨[], [' '], "SELECT".toList, [' '], "COUNT".toList, "(x)\n".toList,
      "FROM".toList, " t ".toList, [], "COUNT".toList, by decide, by decide,
      by decide, by decide, by decide, by decide⟩
  · decide

/-- C3 amended: for every query text, `subquery_with_aggregation` returns
true iff the text contains a parenthesized `SELECT ... FROM ...` span with
an aggregation keyword between the `SELECT` and the `FROM`, provided the
three gap segments spanned by the dot classes contain no newline; a
one-line aggregating subquery is flagged. -/
theorem subquery_with_aggregation_spec :
    (∀ q : String,
      AntiPatterns.subquery_with_aggregation q = true ↔ AggSubSpanNoNL q.toList) ∧
    AntiPatterns.subquery_with_aggregation "SELECT a FROM (SELECT COUNT(b) FROM t)" = true := by
  refine ⟨?_, by decide⟩
  intro q
  exact searchAggSub_iff

/-- C2: for every input string, the rule-based analysis mapping has exactly
the six issue keys `select_star`, `multiple_with_clauses`,
`subquery_with_aggregation`, `subquery_with_distinct`, `too_many_joins`,
`order_by_without_limit`, in the fixed construction order, each bound to a
boolean; no key is omitted and no other key is present. -/
theorem analyze_query_keys (q : String) :
    ((analyze_query q).analysis).map Prod.fst =
      ["select_star", "multiple_with_clauses", "subquery_with_aggregation",
       "subquery_with_distinct", "too_many_joins", "order_by_without_limit"] := rfl

/-- C9: for every query text, the explanations mapping of the rule-based
analysis has an entry for exactly the issues whose boolean is true, each
bound to the fixed explanation string of the spec table; `select_star`'s
table entry is the expected string. -/
theorem analyze_query_explanations :
    (∀ q : String,
      (analyze_query q).explanations =
        (((analyze_query q).analysis).filter (fun p => p.2)).map
          (fun p => (p.1, specExplanation p.1))) ∧
    specExplanation "select_star" =
      "Using SELECT * retrieves unnecessary columns, increasing I/O and network load." := by
  refine ⟨?_, rfl⟩
  intro q
  show buildExpl (ruleAnalysis q) =
    ((ruleAnalysis q).filter (fun p => p.2)).map (fun p => (p.1, specExplanation p.1))
  unfold ruleAnalysis
  cases AntiPatterns.select_star q <;>
    cases AntiPatterns.multiple_with_clauses q <;>
    cases AntiPatterns.subquery_with_aggregation q <;>
    cases AntiPatterns.subquery_with_distinct q <;>
    cases AntiPatterns.too_many_joins q <;>
    cases AntiPatterns.order_by_without_limit q <;> rfl

/-- C4: optimizing with a diagnosis whose six issue lookups are all false
returns the query text unchanged; `dictGetB` returns false for absent keys
too, so the theorem covers diagnoses missing any or all issue keys. -/
theorem optimize_query_noop (q : String) (d : List (String × Bool))
    (h1 : dictGetB d "select_star" = false)
    (h2 : dictGetB d "multiple_with_clauses" = false)
    (h3 : dictGetB d "subquery_with_aggregation" = false)
    (h4 : dictGetB d "subquery_with_distinct" = false)
    (h5 : dictGetB d "too_many_joins" = false)
    (h6 : dictGetB d "order_by_without_limit" = false) :
    optimize_query q d = q := by
  simp [optimize_query, h1, h2, h3, h4, h6]

/-- C4 witness: the no-op path at a concrete query and the empty diagnosis,
every issue key absent. -/
theorem optimize_query_noop_witness : optimize_query "SELECT 1" [] = "SELECT 1" :=
  optimize_query_noop "SELECT 1" [] rfl rfl rfl rfl rfl rfl

/-- C8: `too_many_joins` has no optimization transform: a diagnosis with it
true and the other five issues false leaves the query unchanged. -/
theorem too_many_joins_no_transform (q : String) (d : List (String × Bool))
    (hj : dictGetB d "too_many_joins" = true)
    (h1 : dictGetB d "select_star" = false)
    (h2 : dictGetB d "multiple_with_clauses" = false)
    (h3 : dictGetB d "subquery_with_aggregation" = false)
    (h4 : dictGetB d "subquery_with_distinct" = false)
    (h6 : dictGetB d "order_by_without_limit" = false) :
    optimize_query q d = q := by
  simp [optimize_query, h1, h2, h3, h4, h6]

/-- C8 witness: at a concrete query and a diagnosis with only
`too_many_joins` set. -/
theorem too_many_joins_no_transform_witness :
    optimize_query "SELECT a FROM t JOIN u JOIN v JOIN w JOIN z"
      [("too_many_joins", true)] = "SELECT a FROM t JOIN u JOIN v JOIN w JOIN z" :=
  too_many_joins_no_transform _ _ rfl rfl rfl rfl rfl rfl

/-- C10: detection and rewriting of `SELECT *` disagree on letter case: the
lowercase query is flagged by the case-insensitive `select_star` predicate,
yet the `select_star` transform, which replaces only the exact uppercase
literal, leaves it unchanged — as does the full optimization on the
query's own diagnosis. -/
theorem select_star_case_mismatch :
    AntiPatterns.select_star "select * from t" = true ∧
    RuleBasedQueryOptimizer.optimize_select_star "select * from t" = "select * from t" ∧
    optimize_query "select * from t" (analyze_query "select * from t").analysis =
      "select * from t" :=
  ⟨by decide, by decide, by decide⟩

theorem containsSub_iff {s pat : List Char} :
    containsSub s pat = true ↔ ∃ a b, s = a ++ pat ++ b := by
  unfold containsSub
  rw [searchNoCtx_iff]
  constructor
  · rintro ⟨a, t, rfl, ht⟩
    rcases isPre_iff.mp ht with ⟨b, rfl⟩
    exact ⟨a, b, by simp [List.append_assoc]⟩
  · rintro ⟨a, b, rfl⟩
    exact ⟨a, pat ++ b, by simp [List.append_assoc], isPre_self_append pat b⟩

theorem append_ne_self {q t : String} (ht : t.toList ≠ []) : q ++ t ≠ q := by
  intro h
  have hd := congrArg String.data h
  rw [String.data_append] at hd
  have hlen := congrArg List.length hd
  rw [List.length_append] at hlen
  have : t.data.length ≠ 0 := fun h0 => ht (List.length_eq_zero.mp h0)
  omega

/-- C7: the `order_by_without_limit` transform appends a newline plus the
`LIMIT 1000` clause with its inline comment exactly when the uppercased
text contains `ORDER BY` and does not contain `LIMIT`, and returns the text
unchanged otherwise; the claim's concrete optimization instance is also
checked. -/
theorem add_limit_to_order_by_spec :
    (∀ q : String,
      (RuleBasedQueryOptimizer.add_limit_to_order_by q =
          q ++ "\nLIMIT 1000 /* Added limit to improve performance */" ↔
        UpContains q "ORDER BY" ∧ ¬ UpContains q "LIMIT") ∧
      (RuleBasedQueryOptimizer.add_limit_to_order_by q = q ∨
        RuleBasedQueryOptimizer.add_limit_to_order_by q =
          q ++ "\nLIMIT 1000 /* Added limit to improve performance */")) ∧
    optimize_query "SELECT x FROM t ORDER BY x"
        [("select_star", false), ("multiple_with_clauses", false),
         ("subquery_with_aggregation", false), ("subquery_with_distinct", false),
         ("too_many_joins", false), ("order_by_without_limit", true)] =
      "SELECT x FROM t ORDER BY x\nLIMIT 1000 /* Added limit to improve performance */" := by
  refine ⟨?_, by decide⟩
  intro q
  have hlit : ("\nLIMIT 1000 /* Added limit to improve performance */" : String).toList ≠ [] := by
    decide
  unfold RuleBasedQueryOptimizer.add_limit_to_order_by
  by_cases hcond : (containsSub (pyUpper q).toList "ORDER BY".toList &&
      !containsSub (pyUpper q).toList "LIMIT".toList) = true
  · rw [if_pos hcond]
    rw [Bool.and_eq_true, Bool.not_eq_true'] at hcond
    obtain ⟨hA, hB⟩ := hcond
    refine ⟨⟨fun _ => ⟨containsSub_iff.mp hA, fun hc => ?_⟩, fun _ => rfl⟩, Or.inr rfl⟩
    have hb := containsSub_iff.mpr hc
    rw [hb] at hB
    exact Bool.noConfusion hB
  · rw [if_neg hcond]
    refine ⟨⟨fun h => absurd h.symm (append_ne_self hlit), ?_⟩, Or.inl rfl⟩
    rintro ⟨hup, hnup⟩
    exfalso
    apply hcond
    rw [Bool.and_eq_true, Bool.not_eq_true']
    refine ⟨containsSub_iff.mpr hup, ?_⟩
    cases hb : containsSub (pyUpper q).toList "LIMIT".toList with
    | false => rfl
    | true => exact absurd (containsSub_iff.mp hb) hnup

theorem repAux_skip (pat rep : List Char) :
    ∀ l r : List Char, repAux pat rep l.length (l ++ r) = repAux pat rep 0 r := by
  intro l
  induction l with
  | nil => intro r; rfl
  | cons c l' ih => intro r; exact ih r

theorem replaceAll_first (pat rep : List Char) (hp : pat ≠ []) :
    ∀ s₁ s₂ : List Char,
      (∀ i, i < s₁.length → isPre pat (List.drop i (s₁ ++ pat ++ s₂)) = false) →
      replaceAll pat rep (s₁ ++ pat ++ s₂) = s₁ ++ rep ++ replaceAll pat rep s₂ := by
  intro s₁
  induction s₁ with
  | nil =>
    intro s₂ _
    cases pat with
    | nil => exact absurd rfl hp
    | cons p ps =>
      rw [List.nil_append, List.nil_append, List.cons_append]
      show repAux (p :: ps) rep 0 (p :: (ps ++ s₂)) = rep ++ repAux (p :: ps) rep 0 s₂
      have hpre : isPre (p :: ps) (p :: (ps ++ s₂)) = true := by
        have := isPre_self_append (p :: ps) s₂
        rwa [List.cons_append] at this
      simp only [repAux, hpre, if_true]
      have hskip : repAux (p :: ps) rep ((p :: ps).length - 1) (ps ++ s₂) =
          repAux (p :: ps) rep 0 s₂ := by
        have := repAux_skip (p :: ps) rep ps s₂
        simpa using this
      rw [hskip]
  | cons c s₁' ih =>
    intro s₂ h
    have e1 : (c :: s₁') ++ pat ++ s₂ = c :: (s₁' ++ pat ++ s₂) := by simp
    have h0 : isPre pat (c :: (s₁' ++ pat ++ s₂)) = false := by
      have := h 0 (by simp)
      simpa using this
    rw [e1]
    show repAux pat rep 0 (c :: (s₁' ++ pat ++ s₂)) =
      (c :: s₁') ++ rep ++ repAux pat rep 0 s₂
    simp only [repAux, h0]
    rw [List.cons_append, List.cons_append]
    have hrec := ih s₂ (fun i hi => by
      have := h (i + 1) (by simpa using Nat.succ_lt_succ hi)
      rw [e1] at this
      simpa [List.drop_succ_cons] using this)
    simpa using hrec

/-- C1 counterexample: on a query with two `SELECT *` occurrences the
`select_star` transform replaces both, so its output differs from the
output the claim describes, in which every occurrence after the first
remains unchanged. -/
theorem optimize_select_star_first_only_cex :
    RuleBasedQueryOptimizer.optimize_select_star "SELECT * FROM (SELECT * FROM t)" =
      "SELECT id, name, value, timestamp /* specify only needed columns */ FROM (SELECT id, name, value, timestamp /* specify only needed columns */ FROM t)" ∧
    ("SELECT id, name, value, timestamp /* specify only needed columns */ FROM (SELECT id, name, value, timestamp /* specify only needed columns */ FROM t)" : String) ≠
      "SELECT id, name, value, timestamp /* specify only needed columns */ FROM (SELECT * FROM t)" :=
  ⟨by decide, by decide⟩

/-- C1 amended: `optimize_select_star` replaces every occurrence of the
literal `SELECT *`, left to right: when the text splits at its first
occurrence as `s₁ ++ "SELECT *" ++ s₂`, the transform emits `s₁`, then the
replacement column list with its inline comment, then the recursively
rewritten `s₂` — so occurrences after the first are replaced as well, not
left unchanged. -/
theorem optimize_select_star_all_occurrences (s₁ s₂ : List Char)
    (h : ∀ i, i < s₁.length →
      isPre "SELECT *".toList (List.drop i (s₁ ++ "SELECT *".toList ++ s₂)) = false) :
    RuleBasedQueryOptimizer.optimize_select_star
        (String.mk (s₁ ++ "SELECT *".toList ++ s₂)) =
      String.mk (s₁ ++
        "SELECT id, name, value, timestamp /* specify only needed columns */".toList ++
        replaceAll "SELECT *".toList
          "SELECT id, name, value, timestamp /* specify only needed columns */".toList s₂) := by
  unfold RuleBasedQueryOptimizer.optimize_select_star
  congr 1
  exact replaceAll_first "SELECT *".toList
    "SELECT id, name, value, timestamp /* specify only needed columns */".toList
    (by decide) s₁ s₂ h

/-- C1 amended witness: the first-occurrence split instantiated on a
concrete query with a second `SELECT *` occurrence in its tail. -/
theorem optimize_select_star_all_occurrences_witness :
    RuleBasedQueryOptimizer.optimize_select_star
        (String.mk ("A ".toList ++ "SELECT *".toList ++ " FROM (SELECT * FROM t)".toList)) =
      String.mk ("A ".toList ++
        "SELECT id, name, value, timestamp /* specify only needed columns */".toList ++
        replaceAll "SELECT *".toList
          "SELECT id, name, value, timestamp /* specify only needed columns */".toList
          " FROM (SELECT * FROM t)".toList) :=
  optimize_select_star_all_occurrences "A ".toList " FROM (SELECT * FROM t)".toList
    (by decide)
